import Mathlib

/-!
# Verification of the go-allocations extension core

A shallow embedding, in Lean, of the discovery-cache-and-execution engine of
the go-allocations VS Code extension: the pprof report parser
(`parseMemoryProfile` and its two regular expressions in `src/provider.ts`),
the user-code classifier (`GoEnvironment.isUserCode` in `src/go.ts`), the
single-benchmark run coordinator (`getAllocationData` / a
`BenchmarkItem.getChildren`), the benchmark cache (`BenchmarkItemCache`,
`findBenchmark`), the cancellation controller (`cancelAll` / `abortSignal`),
the per-package discovery loop (`loadPackagesFromWorkspace`) and the
semaphore-bounded batch runner (`runAllBenchmarks`).

Strings are modelled as `List Char`; JavaScript string-level behaviour
(`trim`, `includes`, `split`, regex matching for the two fixed regular
expressions) is reproduced by executable functions below.
-/

namespace GoAllocations

/-- JavaScript's `\s` / `trim` whitespace, restricted to the ASCII whitespace
characters that can occur in the profiler's output. -/
def jsWhitespace (c : Char) : Bool :=
  c == ' ' || c == '\t' || c == '\n' || c == '\r' || c == '\x0b' || c == '\x0c'

/-- `String.prototype.trim`: drop leading and trailing whitespace. -/
def jsTrim (cs : List Char) : List Char :=
  ((cs.dropWhile jsWhitespace).reverse.dropWhile jsWhitespace).reverse

/-- Does `pre` occur at the start of `cs` (JS `startsWith`)? -/
def listStartsWith : List Char → List Char → Bool
  | [], _ => true
  | _ :: _, [] => false
  | p :: ps, c :: cs => p == c && listStartsWith ps cs

/-- Strip `pre` from the front of `cs`, if present. -/
def dropPrefixChars : List Char → List Char → Option (List Char)
  | [], cs => some cs
  | _ :: _, [] => none
  | p :: ps, c :: cs => if p == c then dropPrefixChars ps cs else none

/-- JS `String.prototype.includes`: substring containment. -/
def containsSub (needle : List Char) : List Char → Bool
  | [] => listStartsWith needle []
  | c :: cs => listStartsWith needle (c :: cs) || containsSub needle cs

/-- Greedy run of whitespace and the remainder (`\s*` maximal munch). -/
def spanWs : List Char → List Char × List Char
  | [] => ([], [])
  | c :: cs =>
    if jsWhitespace c then
      let (a, b) := spanWs cs
      (c :: a, b)
    else ([], c :: cs)

/-- Drop a maximal run of whitespace. -/
def skipWs (cs : List Char) : List Char := (spanWs cs).2

/-- Greedy run of ASCII digits and the remainder (`\d+` maximal munch). -/
def spanDigits : List Char → List Char × List Char
  | [] => ([], [])
  | c :: cs =>
    if c.isDigit then
      let (a, b) := spanDigits cs
      (c :: a, b)
    else ([], c :: cs)

/-- Digits to a number, as `parseInt` does on an all-digit string. -/
def digitsToNat (cs : List Char) : Nat :=
  cs.foldl (fun n c => n * 10 + (c.toNat - '0'.toNat)) 0

end GoAllocations

namespace GoAllocations

/-!
## The two fixed regular expressions of the profile parser

`src/provider.ts`:
```
routineRegex = /^ROUTINE\s*=+\s*(.+?)\s+in\s+(.+)$/
lineRegex    = /^\s*(\d+(?:\.\d+)?[KMGT]?B)?\s*(\d+(?:\.\d+)?[KMGT]?B)?\s*(\d+):\s*(.+)$/
```
Each is compiled by hand into an executable matcher that reproduces the
JavaScript backtracking semantics (greedy `\s*`/`=+`/`\d+`, lazy `(.+?)`,
optional groups tried present-first) on the anchored patterns.
-/

/-- One size token `\d+(?:\.\d+)?[KMGT]?B`, maximal munch.  Backtracking
inside the token can never succeed where maximal munch fails, because no
alternative continuation consumes a digit. -/
def matchSizeToken (cs : List Char) : Option (List Char × List Char) :=
  let (ds, r1) := spanDigits cs
  if ds.isEmpty then none else
  let (frac, r2) :=
    match r1 with
    | '.' :: r =>
      let (fs, r') := spanDigits r
      if fs.isEmpty then (([] : List Char), r1) else ('.' :: fs, r')
    | _ => ([], r1)
  let (unit, r3) :=
    match r2 with
    | c :: r =>
      if c == 'K' || c == 'M' || c == 'G' || c == 'T' then ([c], r) else (([] : List Char), r2)
    | [] => ([], r2)
  match r3 with
  | 'B' :: r4 => some (ds ++ frac ++ unit ++ ['B'], r4)
  | _ => none

/-- The tail `\s*(\d+):\s*(.+)$` of `lineRegex`: line number and code text.
If everything after the colon is whitespace, `\s*` backtracks one character
so that `(.+)` is nonempty (this can only happen on non-trimmed input). -/
def matchLineTail (cs : List Char) : Option (List Char × List Char) :=
  let (ds, r) := spanDigits (skipWs cs)
  if ds.isEmpty then none else
  match r with
  | ':' :: r2 =>
    match skipWs r2 with
    | [] =>
      match r2.reverse with
      | [] => none
      | c :: _ => some (ds, [c])
    | code => some (ds, code)
  | _ => none

/-- Captured groups of `lineRegex`: the two optional size columns, the line
number digits, and the source text. -/
structure LineMatch where
  flat : Option (List Char)
  cum : Option (List Char)
  lineDigits : List Char
  code : List Char
  deriving DecidableEq, Repr

/-- `lineRegex` in full.  The two optional groups are attempted
present-first (JS greedy `?`), in the four combinations in backtracking
order; the `\s*` separators are maximal munch, which is complete here
because whitespace can never begin a size token or the line number. -/
def matchAllocLine (cs0 : List Char) : Option LineMatch :=
  let cs := skipWs cs0
  let both : Option LineMatch := do
    let (f, r1) ← matchSizeToken cs
    let (c, r2) ← matchSizeToken (skipWs r1)
    let (ds, code) ← matchLineTail r2
    pure ⟨some f, some c, ds, code⟩
  let flatOnly : Option LineMatch := do
    let (f, r1) ← matchSizeToken cs
    let (ds, code) ← matchLineTail r1
    pure ⟨some f, none, ds, code⟩
  let cumOnly : Option LineMatch := do
    let (c, r2) ← matchSizeToken cs
    let (ds, code) ← matchLineTail r2
    pure ⟨none, some c, ds, code⟩
  let neither : Option LineMatch := do
    let (ds, code) ← matchLineTail cs
    pure ⟨none, none, ds, code⟩
  both <|> flatOnly <|> cumOnly <|> neither

/-- `\s+in\s+(.+)$`, attempted at a fixed position: a nonempty whitespace
run, the literal `in`, a nonempty whitespace run, then a nonempty remainder
(which may be a final whitespace character released by the greedy `\s+`). -/
def matchInTail (cs : List Char) : Option (List Char) :=
  let (w1, r1) := spanWs cs
  if w1.isEmpty then none else
  match r1 with
  | 'i' :: 'n' :: r2 =>
    let (w2, r3) := spanWs r2
    if w2.isEmpty then none
    else
      match r3 with
      | [] =>
        match w2.reverse with
        | c :: _ :: _ => some [c]
        | _ => none
      | _ => some r3
  | _ => none

/-- The lazy `(.+?)` of `routineRegex`: the shortest nonempty prefix after
which `\s+in\s+(.+)$` matches.  Returns the captured function name and file. -/
def lazySplit : List Char → Option (List Char × List Char)
  | [] => none
  | c :: rest =>
    match matchInTail rest with
    | some g2 => some ([c], g2)
    | none =>
      match lazySplit rest with
      | some (g1, g2) => some (c :: g1, g2)
      | none => none

/-- Backtracking over the second `\s*` of `routineRegex`: the greedy run is
tried whole first, then whitespace characters (held reversed) are released
one at a time back into the region scanned by the lazy group. -/
def tryWsRelease : List Char → List Char → Option (List Char × List Char)
  | [], r => lazySplit r
  | c :: wrev', r =>
    match lazySplit r with
    | some res => some res
    | none => tryWsRelease wrev' (c :: r)

/-- Backtracking over `=+`: the greedy run of `kept` equal signs is tried
first; on failure one `=` at a time is released into the scanned region,
as long as at least one `=` remains matched. -/
def tryEqsRelease : Nat → List Char → Option (List Char × List Char)
  | 0, _ => none
  | 1, region =>
    let (w, r) := spanWs region
    tryWsRelease w.reverse r
  | kept + 2, region =>
    let (w, r) := spanWs region
    match tryWsRelease w.reverse r with
    | some res => some res
    | none => tryEqsRelease (kept + 1) ('=' :: region)

/-- Greedy run of `=` characters and the remainder (`=+` maximal munch). -/
def spanEqs : List Char → List Char × List Char
  | [] => ([], [])
  | c :: cs =>
    if c == '=' then
      let (a, b) := spanEqs cs
      (c :: a, b)
    else ([], c :: cs)

/-- `routineRegex = /^ROUTINE\s*=+\s*(.+?)\s+in\s+(.+)$/`; returns the
captured (function name, file path) on a match.  The first `\s*` is pure
maximal munch (backtracking it can never help since `=` is not whitespace). -/
def matchRoutine (cs : List Char) : Option (List Char × List Char) :=
  match dropPrefixChars ("ROUTINE".data) cs with
  | none => none
  | some r =>
    let (eqs, r2) := spanEqs (skipWs r)
    if eqs.isEmpty then none
    else tryEqsRelease eqs.length r2

end GoAllocations

namespace GoAllocations

/-!
## The profile parser state machine

`parseMemoryProfile` (`src/provider.ts`) consumes the stdout of
`go tool pprof -list=<module>` line by line.  A routine-marker line enters
a routine (capturing function and file); inside a routine, each trimmed
nonempty line not containing `Total:` or `ROUTINE` that matches `lineRegex`
with a positive line number and a nonzero flat or cumulative column yields
an `AllocationItem`; a blank line or a line containing `ROUTINE` leaves the
routine.
-/

/-- The data carried by one emitted `AllocationItem`. -/
structure AllocationRecord where
  /-- The item label: the trimmed source text of the line. -/
  label : List Char
  filePath : List Char
  lineNumber : Nat
  flatBytes : List Char
  cumulativeBytes : List Char
  functionName : List Char
  deriving DecidableEq, Repr

/-- `shortFunctionName`: last path segment after `/`, then after the first
`.` (display helper in `src/provider.ts`). -/
def shortFunctionName (fullName : List Char) : List Char :=
  let afterSlash := (fullName.reverse.takeWhile (fun c => c != '/')).reverse
  match afterSlash.dropWhile (fun c => c != '.') with
  | [] => afterSlash
  | _ :: r => r

/-- The mutable locals of the `rl.on('line')` handler. -/
structure ParserState where
  currentFunction : List Char
  currentFile : List Char
  inFunction : Bool
  items : List AllocationRecord
  deriving Repr

def initParserState : ParserState := ⟨[], [], false, []⟩

/-- One step of the line handler of `parseMemoryProfile`. -/
def processLine (st : ParserState) (line : List Char) : ParserState :=
  let t := jsTrim line
  match matchRoutine t with
  | some (fn, file) =>
    { st with currentFunction := fn, currentFile := file, inFunction := true }
  | none =>
    let st' :=
      if st.inFunction && !t.isEmpty
          && !containsSub ("Total:".data) t && !containsSub ("ROUTINE".data) t then
        match matchAllocLine t with
        | some m =>
          let flatBytes := m.flat.getD ("0B".data)
          let cumulativeBytes := m.cum.getD ("0B".data)
          let lineNumber := digitsToNat m.lineDigits
          if decide (0 < lineNumber)
              && (flatBytes != "0B".data || cumulativeBytes != "0B".data) then
            { st with items := st.items ++
                [⟨jsTrim m.code, st.currentFile, lineNumber, flatBytes,
                  cumulativeBytes, shortFunctionName st.currentFunction⟩] }
          else st
        | none => st
      else st
    if t.isEmpty || containsSub ("ROUTINE".data) t then
      { st' with inFunction := false }
    else st'

/-- All allocation records emitted for a given stdout stream (as lines). -/
def parsePprofLines (lines : List (List Char)) : List AllocationRecord :=
  (lines.foldl processLine initParserState).items

end GoAllocations


namespace GoAllocations

/-!
## Claim C1: the spec's two-routine fixture

The spec's fixture, verbatim (the parser receives these six lines):
```
ROUTINE ==== pkg.BenchmarkX in /a/b_test.go
     .    3.77GB     13: for i := 0; i < b.N; i++ {
     .    3.77GB     14:   alloc()
ROUTINE ==== pkg.alloc in /a/b_test.go
3.77GB    3.77GB      9: func alloc() {
3.77GB    3.77GB     10:   s := build()
```
-/

def fixtureLines : List (List Char) :=
  [ "ROUTINE ==== pkg.BenchmarkX in /a/b_test.go".data
  , "     .    3.77GB     13: for i := 0; i < b.N; i++ \x7b".data
  , "     .    3.77GB     14:   alloc()".data
  , "ROUTINE ==== pkg.alloc in /a/b_test.go".data
  , "3.77GB    3.77GB      9: func alloc() \x7b".data
  , "3.77GB    3.77GB     10:   s := build()".data ]

end GoAllocations

namespace GoAllocations

/-!
## The user-code classifier (`GoEnvironment.isUserCode`, `src/go.ts`)

`path.dirname` (POSIX, an external Node collaborator) is modelled for
single-separator paths: the basename and its separator are removed; a path
with no separator yields `.`, and a file directly under the root yields `/`.
-/

/-- Model of POSIX `path.dirname` for single-separator paths. -/
def dirnameChars (p : List Char) : List Char :=
  match p.reverse.dropWhile (fun c => c != '/') with
  | [] => ".".data
  | ['/'] => "/".data
  | _ :: rest => rest.reverse

/-- The cached Go environment consulted by `isUserCode`: `GOROOT`, the
fallback `GOMOD`, and the `goModPath` of each discovered module (`null`
fields are `none`). -/
structure GoEnvironmentModel where
  root : Option (List Char)
  mod : Option (List Char)
  modules : List (List Char)
  deriving Repr

def devNull : List Char := "/dev/null".data

/-- `GoEnvironment.isUserCode` (`src/go.ts`): module containment wins; else
a `GOROOT` prefix or a `/vendor/` segment disqualifies; else user code. -/
def isUserCode (env : GoEnvironmentModel) (filePath : List Char) : Bool :=
  let inModule :=
    if !env.modules.isEmpty then
      env.modules.any fun goModPath =>
        !goModPath.isEmpty && goModPath != devNull
          && listStartsWith (dirnameChars goModPath) filePath
    else
      match env.mod with
      | some m => !m.isEmpty && m != devNull && listStartsWith (dirnameChars m) filePath
      | none => false
  if inModule then true
  else if (match env.root with
           | some r => !r.isEmpty && listStartsWith r filePath
           | none => false) then false
  else if containsSub ("/vendor/".data) filePath then false
  else true

/-- A pprof listing fragment whose routine lives under a typical `GOROOT`. -/
def gorootFixtureLines : List (List Char) :=
  [ "ROUTINE ======== fmt.Sprintf in /usr/local/go/src/fmt/print.go".data
  , "2.50MB     5.50MB    237: p := newPrinter()".data ]

/-- A typical environment: `GOROOT=/usr/local/go`, a user module elsewhere. -/
def gorootFixtureEnv : GoEnvironmentModel :=
  ⟨some ("/usr/local/go".data), some ("/home/user/project/go.mod".data), []⟩

end GoAllocations

namespace GoAllocations

/-!
## The single-benchmark run coordinator

`BenchmarkItem.getChildren` / `getAllocationData`: the temporary profile
path is allocated after the initial abort check; the benchmark command runs
inside an inner `try` whose `finally` deletes the artifact; any throw
(cancellation included) reaches the single outer `catch`, which returns one
error-styled `InformationItem` carrying the message.  The environment below
records the outcome of every effect the control flow can observe.
-/

/-- A benchmark node's child: an `InformationItem` (label and icon type) or
an `AllocationItem`. -/
inductive ChildItem where
  | info (label : List Char) (iconType : List Char)
  | alloc (record : AllocationRecord)
  deriving DecidableEq, Repr

def errorItem (msg : List Char) : ChildItem := .info msg ("error".data)

def operationCancelled : List Char := "Operation cancelled".data

/-- Result of the `execAsync` of the `go test` command: resolution with
stdout/stderr, or rejection with an error message (an abort during the run
surfaces as a rejection whose message comes from the abort error). -/
inductive ExecOutcome where
  | ok (stdout stderr : List Char)
  | fail (errMessage : List Char)
  deriving DecidableEq, Repr

/-- Everything the control flow of one run observes. -/
structure RunEnv where
  /-- `benchmarkItem.filePath` is falsy. -/
  filePathEmpty : Bool
  /-- the abort check before the profile path is allocated fires -/
  abortedAtStart : Bool
  execOutcome : ExecOutcome
  /-- the abort check after the benchmark completes fires -/
  abortedAfterExec : Bool
  /-- what `parseMemoryProfile` returns (it catches internally, never throws) -/
  parseItems : List ChildItem
  deriving Repr

/-- What one run produced: the children handed to the caller, how many times
deletion of the temporary artifact was attempted, and whether the artifact
path had been allocated at all. -/
structure RunResult where
  items : List ChildItem
  unlinkAttempts : Nat
  profileAllocated : Bool
  deriving DecidableEq, Repr

/-- The control flow of `getAllocationData` / `BenchmarkItem.getChildren`. -/
def getAllocationData (env : RunEnv) : RunResult :=
  if env.filePathEmpty then ⟨[], 0, false⟩
  else if env.abortedAtStart then ⟨[errorItem operationCancelled], 0, false⟩
  else
    match env.execOutcome with
    | .fail msg => ⟨[errorItem msg], 1, true⟩
    | .ok _ _ =>
      if env.abortedAfterExec then ⟨[errorItem operationCancelled], 1, true⟩
      else ⟨env.parseItems, 1, true⟩

end GoAllocations

namespace GoAllocations

/-!
## The benchmark command (`-bench=^<escaped>$`)

`shell-quote`'s `quote` (external npm collaborator) for a single string
argument: wrap in single quotes when it has a double quote or whitespace but
no single quote; wrap in double quotes when it has a quote or whitespace;
otherwise escape each shell metacharacter with a backslash (the Windows
drive-prefix exception of the last branch is irrelevant to POSIX paths and
untouched strings).  Benchmark names are Go identifiers and fall in the last
branch with nothing to escape.
-/

/-- The metacharacter class of `quote`'s escape branch. -/
def isShellSpecialChar (c : Char) : Bool :=
  c == '#' || c == '!' || c == '"' || c == '$' || c == '&' || c == '\'' ||
  c == '(' || c == ')' || c == '*' || c == ',' || c == ':' || c == ';' ||
  c == '<' || c == '=' || c == '>' || c == '?' || c == '@' || c == '[' ||
  c == '\\' || c == ']' || c == '^' || c == '\x60' || c == '\x7b' ||
  c == '|' || c == '\x7d'

/-- Escape every character selected by `p` with a backslash. -/
def escapeChars (p : Char → Bool) : List Char → List Char
  | [] => []
  | c :: cs => if p c then '\\' :: c :: escapeChars p cs else c :: escapeChars p cs

/-- `quote([s])` of the `shell-quote` package. -/
def shellQuote (s : List Char) : List Char :=
  if s.any (fun c => c == '"' || jsWhitespace c) && !s.any (fun c => c == '\'') then
    '\'' :: escapeChars (fun c => c == '\'' || c == '\\') s ++ ['\'']
  else if s.any (fun c => c == '"' || c == '\'' || jsWhitespace c) then
    '"' :: escapeChars (fun c => c == '"' || c == '\\' || c == '$' || c == '\x60' || c == '!') s
      ++ ['"']
  else escapeChars isShellSpecialChar s

/-- The `-bench` value built for a single run: `^${escaped}$`. -/
def benchPattern (benchmarkName : List Char) : List Char :=
  '^' :: (shellQuote benchmarkName ++ ['$'])

/-- The full command of `getAllocationData` (`src/provider.ts`). -/
def buildGoTestCmd (benchmarkName memprofilePath : List Char) : List Char :=
  "go test -bench=".data ++ benchPattern benchmarkName
    ++ " -memprofile=".data ++ memprofilePath
    ++ " -run=^$ -gcflags=\"all=-N -l\" -memprofilerate=".data
    ++ (toString (1024 * 64)).data

/-!
The Go test runner selects a benchmark when the `-bench` expression, an
unanchored regular expression, is found in its name.  For the patterns at
hand — literal characters plus the `^`/`$` anchors — the search semantics
is embedded directly.
-/

inductive RegexAtom where
  | startAnchor
  | endAnchor
  | lit (c : Char)
  deriving DecidableEq, Repr

/-- Compile a pattern of literal characters and anchors. -/
def compileLiteralPattern (cs : List Char) : List RegexAtom :=
  cs.map fun c =>
    if c == '^' then .startAnchor else if c == '$' then .endAnchor else .lit c

/-- Match the atom list against `s` at the current position (`atStart` is
true only at position zero). -/
def matchAtomsFrom : List RegexAtom → List Char → Bool → Bool
  | [], _, _ => true
  | .startAnchor :: ps, s, atStart => atStart && matchAtomsFrom ps s atStart
  | .endAnchor :: ps, s, atStart => s.isEmpty && matchAtomsFrom ps s atStart
  | .lit c :: ps, s, _ =>
    match s with
    | [] => false
    | d :: s' => c == d && matchAtomsFrom ps s' false

/-- Unanchored search: try every start position. -/
def regexSearchFrom (ps : List RegexAtom) : List Char → Bool → Bool
  | [], atStart => matchAtomsFrom ps [] atStart
  | c :: s', atStart => matchAtomsFrom ps (c :: s') atStart || regexSearchFrom ps s' false

/-- Does `go test -bench=<pattern>` select the benchmark named `name`? -/
def benchNameMatches (pattern name : List Char) : Bool :=
  regexSearchFrom (compileLiteralPattern pattern) name true

/-- Characters of a Go benchmark identifier (ASCII fragment). -/
def isGoIdentChar (c : Char) : Bool :=
  c.isAlpha || c.isDigit || c == '_'

end GoAllocations

namespace GoAllocations

/-!
## The benchmark cache (`BenchmarkItemCache`, `findBenchmark`)

Keys are `path.resolve(packagePath) + '::' + benchmarkName`.  `path.resolve`
(POSIX, an external Node collaborator) with a single argument prepends the
working directory to a relative path and normalizes: empty and `.` segments
are dropped and `..` pops, never above the root.  Cached benchmark items are
opaque references, modelled as numeric identities.
-/

/-- Split on `/` (the inverse of `joinSlash` on clean components). -/
def splitSlash : List Char → List (List Char)
  | [] => [[]]
  | c :: r =>
    if c == '/' then [] :: splitSlash r
    else
      match splitSlash r with
      | comp :: rest => (c :: comp) :: rest
      | [] => [[c]]

/-- Join components with `/`. -/
def joinSlash : List (List Char) → List Char
  | [] => []
  | [comp] => comp
  | comp :: rest => comp ++ '/' :: joinSlash rest

/-- One normalization step: drop empty and `.`, pop on `..`, append else. -/
def normStep (acc : List (List Char)) (comp : List Char) : List (List Char) :=
  if comp.isEmpty || comp == (".".data) then acc
  else if comp == ("..".data) then acc.dropLast
  else acc ++ [comp]

/-- Model of POSIX `path.resolve(p)` with working directory `cwd`: a
relative path is first joined onto `cwd`, then the result is normalized. -/
def resolveChars (cwd p : List Char) : List Char :=
  '/' :: joinSlash ((splitSlash (if p.head? == some '/' then p
    else cwd ++ '/' :: p)).foldl normStep [])

/-- `BenchmarkItemCache.getKey`. -/
def getKey (cwd packagePath benchmarkName : List Char) : List Char :=
  resolveChars cwd packagePath ++ "::".data ++ benchmarkName

/-- The underlying `Map` lookup (`Map.prototype.get` on a key-unique map). -/
def cacheGet (cache : List (List Char × Nat)) (key : List Char) : Option Nat :=
  match cache.find? (fun e => e.1 == key) with
  | some e => some e.2
  | none => none

/-- `BenchmarkItemCache.find`. -/
def cacheFind (cache : List (List Char × Nat)) (cwd packagePath benchmarkName : List Char) :
    Option Nat :=
  cacheGet cache (getKey cwd packagePath benchmarkName)

/-- `TreeDataProvider.findBenchmark`, after `ensureLoaded` has completed:
the cached item, or a thrown `Benchmark not found` error. -/
def findBenchmark (cache : List (List Char × Nat)) (cwd packagePath benchmarkName : List Char) :
    Except (List Char) Nat :=
  match cacheFind cache cwd packagePath benchmarkName with
  | some item => .ok item
  | none =>
    .error ("Benchmark not found: ".data ++ benchmarkName
      ++ " in package ".data ++ packagePath)

end GoAllocations

namespace GoAllocations

/-!
## The cancellation controller (`cancelAll` / `abortSignal`)

The provider holds one `AbortController`; `abortSignal()` returns its
signal; `cancelAll()` aborts it and immediately replaces it with a newly
constructed controller.  Controllers are modelled with a creation identity
and an aborted flag; the provider state tracks the next fresh identity and
the retired controllers.
-/

structure AbortControllerModel where
  id : Nat
  aborted : Bool
  deriving DecidableEq, Repr

structure ProviderCancelState where
  nextId : Nat
  current : AbortControllerModel
  retired : List AbortControllerModel
  deriving Repr

/-- `abortSignal()`: the current controller's signal. -/
def abortSignal (s : ProviderCancelState) : AbortControllerModel := s.current

/-- `cancelAll()`: abort the current controller, then replace it with a
fresh one (`new AbortController()` starts non-aborted). -/
def cancelAll (s : ProviderCancelState) : ProviderCancelState :=
  { nextId := s.nextId + 1
  , current := ⟨s.nextId, false⟩
  , retired := ⟨s.current.id, true⟩ :: s.retired }

/-- Identities in the state stay below the fresh-identity counter. -/
def WellFormedCancel (s : ProviderCancelState) : Prop :=
  s.current.id < s.nextId ∧ ∀ c ∈ s.retired, c.id < s.nextId

end GoAllocations

namespace GoAllocations

/-!
## The per-package discovery loop (`loadPackagesFromWorkspace`)

For each line of `go list -f "{{.Name}} {{.Dir}}" ./...`: skip blank or
malformed lines; probe the package with `go test -list=...`; on probe
failure, rethrow when cancelled, otherwise log and continue with the next
candidate; on success, keep the package when the filtered benchmark list is
nonempty.  A `go test -list` output line counts as a benchmark when it
starts with `Benchmark` and does not contain `ok`.
-/

/-- Split on a space character (JS `split(' ')`). -/
def splitSpace : List Char → List (List Char)
  | [] => [[]]
  | c :: r =>
    if c == ' ' then [] :: splitSpace r
    else
      match splitSpace r with
      | comp :: rest => (c :: comp) :: rest
      | [] => [[c]]

/-- Join with single spaces (JS `join(' ')`). -/
def joinSpace : List (List Char) → List Char
  | [] => []
  | [part] => part
  | part :: rest => part ++ ' ' :: joinSpace rest

/-- The benchmark filter applied to the probe's stdout lines. -/
def benchListFilter (lines : List (List Char)) : List (List Char) :=
  (lines.filter fun l =>
    listStartsWith ("Benchmark".data) l && !containsSub ("ok".data) l).map jsTrim

/-- One candidate of the package loop: the raw `go list` line, the probe's
outcome, and whether the shared signal is aborted while this candidate is
being processed (checked at the loop head and re-checked in the catch). -/
structure PkgCandidate where
  rawLine : List Char
  probe : Except Unit (List (List Char))
  abortedHere : Bool
  deriving Repr

structure DiscoveredPkg where
  name : List Char
  dir : List Char
  benchmarks : List (List Char)
  deriving DecidableEq, Repr

/-- The package loop: returns the packages pushed into the module (pushes
performed before a throw are retained) and the thrown error, if any. -/
def processPackageLines : List PkgCandidate → List DiscoveredPkg × Option (List Char)
  | [] => ([], none)
  | c :: rest =>
    if c.abortedHere then ([], some operationCancelled)
    else
      let line := jsTrim c.rawLine
      if line.isEmpty then processPackageLines rest
      else
        let parts := splitSpace line
        if parts.length < 2 then processPackageLines rest
        else
          match c.probe with
          | .error _ => processPackageLines rest
          | .ok outLines =>
            let benchmarks := benchListFilter outLines
            if benchmarks.isEmpty then processPackageLines rest
            else
              let (pkgs, err) := processPackageLines rest
              (⟨parts.headD [], joinSpace parts.tail, benchmarks⟩ :: pkgs, err)

/-- The package a single candidate should contribute, in isolation. -/
def discoveredOf (c : PkgCandidate) : Option DiscoveredPkg :=
  let line := jsTrim c.rawLine
  if line.isEmpty then none
  else
    let parts := splitSpace line
    if parts.length < 2 then none
    else
      match c.probe with
      | .error _ => none
      | .ok outLines =>
        let benchmarks := benchListFilter outLines
        if benchmarks.isEmpty then none
        else some ⟨parts.headD [], joinSpace parts.tail, benchmarks⟩

end GoAllocations

namespace GoAllocations

/-!
## The semaphore-bounded batch (`runAllBenchmarks`)

All task promises are created up front; each task acquires a slot from
`new Sema(2)`, runs (successfully, with an error, or observing
cancellation), and releases its slot in a `finally` block.  The cooperative
single-threaded scheduler is modelled as a transition system counting
waiting, running and finished tasks together with the free slots.
-/

inductive RunOutcomeTag where
  | success
  | failed
  | cancelled
  deriving DecidableEq, Repr

structure BatchState where
  waiting : Nat
  running : Nat
  finished : Nat
  avail : Nat
  deriving DecidableEq, Repr

/-- The capacity passed to `new Sema(2)`. -/
def semaCapacity : Nat := 2

def initBatchState (tasks : Nat) : BatchState := ⟨tasks, 0, 0, semaCapacity⟩

/-- One scheduler step: a waiting task acquires a free slot, or a running
task finishes — with any outcome, since release happens in `finally` — and
returns its slot. -/
inductive BatchStep : BatchState → BatchState → Prop where
  | acquire (w r f a : Nat) :
      BatchStep ⟨w + 1, r, f, a + 1⟩ ⟨w, r + 1, f, a⟩
  | release (w r f a : Nat) (outcome : RunOutcomeTag) :
      BatchStep ⟨w, r + 1, f, a⟩ ⟨w, r, f + 1, a + 1⟩

/-- States reachable from a batch of `tasks` submitted runs. -/
inductive BatchReachable (tasks : Nat) : BatchState → Prop where
  | init : BatchReachable tasks (initBatchState tasks)
  | step {s s' : BatchState} :
      BatchReachable tasks s → BatchStep s s' → BatchReachable tasks s'

end GoAllocations

namespace GoAllocations

/-!
## Parser lemmas
-/

lemma dropWhile_eq_self_of_head (p : Char → Bool) (cs : List Char)
    (h : ∀ c, cs.head? = some c → p c = false) : cs.dropWhile p = cs := by
  cases cs with
  | nil => rfl
  | cons a l => simp [List.dropWhile_cons, h a rfl]

lemma jsTrim_eq_self (cs : List Char)
    (h1 : ∀ c, cs.head? = some c → jsWhitespace c = false)
    (h2 : ∀ c, cs.getLast? = some c → jsWhitespace c = false) : jsTrim cs = cs := by
  unfold jsTrim
  rw [dropWhile_eq_self_of_head _ _ h1]
  rw [dropWhile_eq_self_of_head _ _ (by simpa using h2)]
  exact cs.reverse_reverse

lemma spanWs_cons_neg (c : Char) (cs : List Char) (h : jsWhitespace c = false) :
    spanWs (c :: cs) = ([], c :: cs) := by simp [spanWs, h]

lemma matchInTail_cons_nonws (c : Char) (cs : List Char) (h : jsWhitespace c = false) :
    matchInTail (c :: cs) = none := by
  simp [matchInTail, spanWs_cons_neg c cs h]

lemma matchInTail_in (d : Char) (f' : List Char) (hd : jsWhitespace d = false) :
    matchInTail (" in ".data ++ d :: f') = some (d :: f') := by
  simp [matchInTail, spanWs, hd, show jsWhitespace ' ' = true from rfl,
    show jsWhitespace 'i' = false from rfl]

lemma lazySplit_cons (c : Char) (xs : List Char) :
    lazySplit (c :: xs) =
      match matchInTail xs with
      | some g2 => some ([c], g2)
      | none =>
        match lazySplit xs with
        | some (g1, g2) => some (c :: g1, g2)
        | none => none := rfl

lemma lazySplit_through (fn tail g2 : List Char)
    (hfn : fn ≠ []) (hws : ∀ c ∈ fn, jsWhitespace c = false)
    (htail : matchInTail tail = some g2) :
    lazySplit (fn ++ tail) = some (fn, g2) := by
  induction fn with
  | nil => exact absurd rfl hfn
  | cons c rest ih =>
    cases rest with
    | nil => simp [lazySplit, htail]
    | cons c' rest' =>
      have hc' : jsWhitespace c' = false := hws c' (by simp)
      have hnone : matchInTail (c' :: (rest' ++ tail)) = none :=
        matchInTail_cons_nonws c' (rest' ++ tail) hc'
      have ihr := ih (by simp) (fun x hx => hws x (by simp [hx]))
      simp only [List.cons_append] at ihr ⊢
      rw [lazySplit_cons, hnone, ihr]

lemma tryWsRelease_hit (wrev r : List Char) (res : List Char × List Char)
    (h : lazySplit r = some res) : tryWsRelease wrev r = some res := by
  cases wrev with
  | nil => simpa [tryWsRelease] using h
  | cons c w' => simp [tryWsRelease, h]

lemma tryEqsRelease_hit (kept : Nat) (region : List Char)
    (res : List Char × List Char) (w r : List Char)
    (hsp : spanWs region = (w, r))
    (h : tryWsRelease w.reverse r = some res) (hkept : kept ≠ 0) :
    tryEqsRelease kept region = some res := by
  match kept, hkept with
  | 1, _ => simp [tryEqsRelease, hsp, h]
  | k + 2, _ => simp [tryEqsRelease, hsp, h]

/-- The routine marker of the standard shape `ROUTINE ======== fn in f` is
matched with groups `fn` (whitespace-free, nonempty) and `f` (nonempty, led
by a non-whitespace character). -/
lemma matchRoutine_std (fn : List Char) (d : Char) (f' : List Char)
    (hfn : fn ≠ []) (hws : ∀ c ∈ fn, jsWhitespace c = false)
    (hd : jsWhitespace d = false) :
    matchRoutine ("ROUTINE ======== ".data ++ (fn ++ (" in ".data ++ d :: f')))
      = some (fn, d :: f') := by
  obtain ⟨c, rest, rfl⟩ : ∃ c rest, fn = c :: rest := by
    cases fn with
    | nil => exact absurd rfl hfn
    | cons c rest => exact ⟨c, rest, rfl⟩
  have hc : jsWhitespace c = false := hws c (by simp)
  have hsplit : lazySplit ((c :: rest) ++ (" in ".data ++ d :: f'))
      = some (c :: rest, d :: f') :=
    lazySplit_through (c :: rest) (" in ".data ++ d :: f') (d :: f')
      (by simp) hws (matchInTail_in d f' hd)
  have h1 : matchRoutine ("ROUTINE ======== ".data ++ (c :: rest ++ (" in ".data ++ d :: f')))
      = tryEqsRelease 8 (' ' :: (c :: rest ++ (" in ".data ++ d :: f'))) := rfl
  rw [h1]
  refine tryEqsRelease_hit 8 _ _ [' '] (c :: rest ++ (" in ".data ++ d :: f')) ?_ ?_
    (by decide)
  · simp only [List.cons_append]
    simp [spanWs, hc, show jsWhitespace ' ' = true from rfl]
  · exact tryWsRelease_hit _ _ _ hsplit

end GoAllocations

namespace GoAllocations

/-!
## C1 — the spec's parser fixture
-/

/-- **C1** (counterexample): on the spec's two-routine fixture the parser does
not emit exactly one `AllocationRecord` — besides line 10 it also emits one
for line 9, whose columns in the fixture carry `3.77GB` as well; two records
come out, at lines 9 and 10 of `pkg.alloc`. -/
theorem c1_counterexample :
    (parsePprofLines fixtureLines).map AllocationRecord.lineNumber = [9, 10] ∧
      (parsePprofLines fixtureLines).length ≠ 1 := by decide

/-- **C1** (amended): on the spec's two-routine fixture the parser emits
exactly two records, both attributed to function `alloc` in `/a/b_test.go`
with flat = cumulative = 3.77GB: one at line 9 and one at line 10 — because
line 9 also carries a nonzero flat column in the fixture; lines 13 and 14 of
`BenchmarkX`, whose flat column is `.`, yield no record. -/
theorem c1_amended :
    parsePprofLines fixtureLines =
      [ ⟨"func alloc() \x7b".data, "/a/b_test.go".data, 9,
          "3.77GB".data, "3.77GB".data, "alloc".data⟩
      , ⟨"s := build()".data, "/a/b_test.go".data, 10,
          "3.77GB".data, "3.77GB".data, "alloc".data⟩ ] := by decide

/-!
## C3 — no ownership filtering inside the parser
-/

/-- **C3** (counterexample): the parser emits a record whose file path lies
under a typical `GOROOT` (`isUserCode` rejects it), because
`parseMemoryProfile` never consults `isUserCode`: ownership filtering does
not happen during parsing. -/
theorem c3_counterexample :
    parsePprofLines gorootFixtureLines =
      [⟨"p := newPrinter()".data, "/usr/local/go/src/fmt/print.go".data, 237,
        "2.50MB".data, "5.50MB".data, "Sprintf".data⟩] ∧
      isUserCode gorootFixtureEnv ("/usr/local/go/src/fmt/print.go".data) = false := by
  decide

/-- **C3** (amended): the parser performs no ownership filtering at all — for
every file path `f` (nonempty, whitespace-free) named by a routine header, an
in-routine line with nonzero cost yields a record carrying exactly `f`,
whether or not `f` is user-owned; exclusion of non-user frames is delegated
to the `-list=<module>` scoping of the pprof invocation, and
`GoEnvironment.isUserCode` is not invoked by `parseMemoryProfile`. -/
theorem c3_amended_no_filter (f : List Char) (hne : f ≠ [])
    (hws : ∀ c ∈ f, jsWhitespace c = false) :
    parsePprofLines
      [ "ROUTINE ======== ".data ++ ("fmt.Sprintf".data ++ (" in ".data ++ f))
      , "2.50MB     5.50MB    237: p := newPrinter()".data ] =
      [⟨"p := newPrinter()".data, f, 237,
        "2.50MB".data, "5.50MB".data, "Sprintf".data⟩] := by
  obtain ⟨d, f', rfl⟩ : ∃ d f', f = d :: f' := by
    cases f with
    | nil => exact absurd rfl hne
    | cons d f' => exact ⟨d, f', rfl⟩
  have hd : jsWhitespace d = false := hws d (by simp)
  have htrim1 :
      jsTrim ("ROUTINE ======== ".data ++ ("fmt.Sprintf".data ++ (" in ".data ++ d :: f')))
        = "ROUTINE ======== ".data ++ ("fmt.Sprintf".data ++ (" in ".data ++ d :: f')) := by
    apply jsTrim_eq_self
    · intro c hc
      simp only [List.cons_append, List.head?_cons, Option.some.injEq] at hc
      exact hc ▸ (by decide : jsWhitespace 'R' = false)
    · intro c hc
      rw [List.getLast?_append_of_ne_nil _ (by simp),
        List.getLast?_append_of_ne_nil _ (by simp),
        List.getLast?_append_of_ne_nil _ (by simp)] at hc
      exact hws c (List.mem_of_mem_getLast? hc)
  have hroutine := matchRoutine_std ("fmt.Sprintf".data) d f' (by decide) (by decide) hd
  have hstep1 :
      processLine initParserState
        ("ROUTINE ======== ".data ++ ("fmt.Sprintf".data ++ (" in ".data ++ d :: f')))
        = ⟨"fmt.Sprintf".data, d :: f', true, []⟩ := by
    simp only [processLine, htrim1, hroutine, initParserState]
  have hstep2 :
      processLine ⟨"fmt.Sprintf".data, d :: f', true, []⟩
        ("2.50MB     5.50MB    237: p := newPrinter()".data)
        = ⟨"fmt.Sprintf".data, d :: f', true,
            [⟨"p := newPrinter()".data, d :: f', 237,
              "2.50MB".data, "5.50MB".data, "Sprintf".data⟩]⟩ := by
    have h1 : jsTrim ("2.50MB     5.50MB    237: p := newPrinter()".data)
        = "2.50MB     5.50MB    237: p := newPrinter()".data := by decide
    have h2 : matchRoutine ("2.50MB     5.50MB    237: p := newPrinter()".data) = none := by
      decide
    have h3 : containsSub ("Total:".data)
        ("2.50MB     5.50MB    237: p := newPrinter()".data) = false := by decide
    have h4 : containsSub ("ROUTINE".data)
        ("2.50MB     5.50MB    237: p := newPrinter()".data) = false := by decide
    have h5 : matchAllocLine ("2.50MB     5.50MB    237: p := newPrinter()".data)
        = some ⟨some ("2.50MB".data), some ("5.50MB".data), "237".data,
            "p := newPrinter()".data⟩ := by decide
    have h6 : jsTrim ("p := newPrinter()".data) = "p := newPrinter()".data := by decide
    have h7 : digitsToNat ("237".data) = 237 := by decide
    have h8 : shortFunctionName ("fmt.Sprintf".data) = "Sprintf".data := by decide
    have h9 : (("2.50MB".data : List Char) != "0B".data) = true := by decide
    simp [processLine, h1, h2, h3, h4, h5, h6, h7, h8, h9]
  simp only [parsePprofLines, List.foldl, hstep1, hstep2]

/-- Witness for `c3_amended_no_filter`, at a file path under `GOROOT`. -/
theorem c3_amended_no_filter_witness :
    parsePprofLines
      [ "ROUTINE ======== ".data
          ++ ("fmt.Sprintf".data ++ (" in ".data ++ "/usr/local/go/src/fmt/print.go".data))
      , "2.50MB     5.50MB    237: p := newPrinter()".data ] =
      [⟨"p := newPrinter()".data, "/usr/local/go/src/fmt/print.go".data, 237,
        "2.50MB".data, "5.50MB".data, "Sprintf".data⟩] :=
  c3_amended_no_filter ("/usr/local/go/src/fmt/print.go".data) (by decide) (by decide)

end GoAllocations

namespace GoAllocations

/-!
## C2 — how cancellation is surfaced, and C4 — artifact cleanup
-/

/-- **C2** (counterexample): a run cancelled before start is handed to the
caller as a single error-styled information record — exactly the same shape
a genuine execution error produces — so cancellation is not surfaced
distinctly from failure in the returned result. -/
theorem c2_counterexample :
    (getAllocationData ⟨false, true, .ok [] [], false, []⟩).items
        = [errorItem operationCancelled] ∧
      (getAllocationData ⟨false, false, .fail ("go test exited 1".data), false, []⟩).items
        = [errorItem ("go test exited 1".data)] := by
  decide

/-- **C2** (amended): cancellation and execution failure are surfaced the
same way: a run cancelled at either abort check returns exactly one
error-styled record with the message `Operation cancelled`, and a failed
execution returns exactly one error-styled record with the failure message;
distinguishing the two is left to callers that consult the abort signal. -/
theorem c2_amended (env : RunEnv) (h : env.filePathEmpty = false) :
    (env.abortedAtStart = true →
        (getAllocationData env).items = [errorItem operationCancelled]) ∧
      (∀ msg, env.execOutcome = .fail msg → env.abortedAtStart = false →
        (getAllocationData env).items = [errorItem msg]) ∧
      (∀ stdout stderr, env.execOutcome = .ok stdout stderr →
        env.abortedAtStart = false → env.abortedAfterExec = true →
        (getAllocationData env).items = [errorItem operationCancelled]) := by
  obtain ⟨fe, as, ex, ae, pi⟩ := env
  refine ⟨?_, ?_, ?_⟩ <;> intros <;> simp_all [getAllocationData]

/-- Witness for `c2_amended`: a concrete cancelled-at-start run. -/
theorem c2_amended_witness :
    (getAllocationData ⟨false, true, .ok [] [], false, []⟩).items
      = [errorItem operationCancelled] :=
  (c2_amended ⟨false, true, .ok [] [], false, []⟩ rfl).1 rfl

/-- **C4**: the temporary profile artifact path is allocated exactly when the
target is nonempty and the pre-allocation abort check did not fire, and once
allocated the deletion of the artifact is attempted exactly once on every
exit path — success, execution error (or abort during execution), and the
post-execution cancellation check alike; with no allocation there is no
deletion attempt. -/
theorem c4_cleanup_exactly_once (env : RunEnv) :
    (getAllocationData env).profileAllocated
        = (!env.filePathEmpty && !env.abortedAtStart) ∧
      (getAllocationData env).unlinkAttempts
        = if (getAllocationData env).profileAllocated then 1 else 0 := by
  obtain ⟨fe, as, ex, ae, pi⟩ := env
  cases fe <;> cases as <;> cases ex <;> cases ae <;> simp [getAllocationData]

end GoAllocations

namespace GoAllocations

/-!
## C6 — the cache lookup fails loudly
-/

/-- **C6**: after loading has completed, `findBenchmark` either returns the
item the cache holds for the key, or throws the `Benchmark not found` error
when the key is absent — never a silent empty result. -/
theorem c6_findBenchmark_total (cache : List (List Char × Nat))
    (cwd packagePath benchmarkName : List Char) :
    (∃ item, cacheFind cache cwd packagePath benchmarkName = some item ∧
        findBenchmark cache cwd packagePath benchmarkName = .ok item) ∨
      (cacheFind cache cwd packagePath benchmarkName = none ∧
        findBenchmark cache cwd packagePath benchmarkName =
          .error ("Benchmark not found: ".data ++ benchmarkName
            ++ " in package ".data ++ packagePath)) := by
  unfold findBenchmark
  cases h : cacheFind cache cwd packagePath benchmarkName with
  | some item => exact .inl ⟨item, rfl, rfl⟩
  | none => exact .inr ⟨rfl, rfl⟩

end GoAllocations

namespace GoAllocations

/-!
## C7 — cancellation scopes are fresh
-/

/-- **C7**: immediately after `cancelAll()` returns, `abortSignal()` yields a
fresh, non-aborted signal, for every well-formed prior state: the new signal
is not aborted, its identity differs from the previous signal's and from
every retired controller's, and well-formedness is preserved. -/
theorem c7_cancelAll_fresh_signal (s : ProviderCancelState) (h : WellFormedCancel s) :
    (abortSignal (cancelAll s)).aborted = false ∧
      (abortSignal (cancelAll s)).id ≠ (abortSignal s).id ∧
      (∀ c ∈ (cancelAll s).retired, (abortSignal (cancelAll s)).id ≠ c.id) ∧
      WellFormedCancel (cancelAll s) := by
  obtain ⟨h1, h2⟩ := h
  refine ⟨rfl, ?_, ?_, ?_, ?_⟩
  · exact fun hid => absurd hid.symm (Nat.ne_of_lt h1)
  · intro c hc
    simp only [cancelAll, List.mem_cons] at hc
    rcases hc with rfl | hc
    · exact fun hid => absurd hid.symm (Nat.ne_of_lt h1)
    · exact fun hid => absurd hid.symm (Nat.ne_of_lt (h2 c hc))
  · exact Nat.lt_succ_self s.nextId
  · intro c hc
    simp only [cancelAll, List.mem_cons] at hc
    rcases hc with rfl | hc
    · exact Nat.lt_succ_of_lt h1
    · exact Nat.lt_succ_of_lt (h2 c hc)

/-- Witness for `c7_cancelAll_fresh_signal`, from the initial provider
state: one live controller, nothing retired. -/
theorem c7_witness :
    (abortSignal (cancelAll ⟨1, ⟨0, false⟩, []⟩)).aborted = false ∧
      (abortSignal (cancelAll ⟨1, ⟨0, false⟩, []⟩)).id
        ≠ (abortSignal ⟨1, ⟨0, false⟩, []⟩).id :=
  ⟨(c7_cancelAll_fresh_signal ⟨1, ⟨0, false⟩, []⟩ ⟨by decide, by simp⟩).1,
   (c7_cancelAll_fresh_signal ⟨1, ⟨0, false⟩, []⟩ ⟨by decide, by simp⟩).2.1⟩

end GoAllocations

namespace GoAllocations

/-!
## C9 — the semaphore bound
-/

lemma batch_slot_invariant (tasks : Nat) (s : BatchState)
    (h : BatchReachable tasks s) : s.running + s.avail = semaCapacity := by
  induction h with
  | init => rfl
  | step _ hstep ih =>
    cases hstep with
    | acquire w r f a => simp only at ih ⊢; omega
    | release w r f a outcome => simp only at ih ⊢; omega

/-- **C9**: in a batch run, for every number of submitted tasks and every
reachable scheduler state, the number of in-flight executions never exceeds
the semaphore capacity 2; and from any state with a running task, finishing
with any outcome — success, failure, or cancellation — is a legal step that
returns the slot, because release happens in a `finally` block. -/
theorem c9_concurrency_bound (tasks : Nat) (s : BatchState)
    (h : BatchReachable tasks s) :
    s.running ≤ semaCapacity ∧
      ∀ outcome : RunOutcomeTag, 0 < s.running →
        BatchStep s ⟨s.waiting, s.running - 1, s.finished + 1, s.avail + 1⟩ := by
  constructor
  · have := batch_slot_invariant tasks s h
    omega
  · intro outcome hr
    obtain ⟨w, r, f, a⟩ := s
    cases r with
    | zero => exact absurd hr (by simp)
    | succ r' => exact BatchStep.release w r' f a outcome

/-- Witness for `c9_concurrency_bound`: the initial state of a batch of 3. -/
theorem c9_witness : (initBatchState 3).running ≤ semaCapacity :=
  (c9_concurrency_bound 3 (initBatchState 3) BatchReachable.init).1

end GoAllocations

namespace GoAllocations

/-!
## C5 — the anchored, escaped benchmark pattern
-/

lemma identChar_ne (c : Char) (h : isGoIdentChar c = true) (d : Char)
    (hd : isGoIdentChar d = false) : (c == d) = false := by
  by_contra hne
  rw [Bool.not_eq_false] at hne
  have hcd : c = d := by simpa using hne
  subst hcd
  exact absurd (h.symm.trans hd) (by decide)

lemma ident_char_class (c : Char) (h : isGoIdentChar c = true) :
    jsWhitespace c = false ∧ isShellSpecialChar c = false ∧ (c == '"') = false ∧
      (c == '\'') = false ∧ (c == '^') = false ∧ (c == '$') = false := by
  refine ⟨?_, ?_, ?_, ?_, ?_, ?_⟩
  · show (c == ' ' || c == '\t' || c == '\n' || c == '\r'
        || c == '\x0b' || c == '\x0c') = false
    rw [identChar_ne c h ' ' (by decide), identChar_ne c h '\t' (by decide),
      identChar_ne c h '\n' (by decide), identChar_ne c h '\r' (by decide),
      identChar_ne c h '\x0b' (by decide), identChar_ne c h '\x0c' (by decide)]
    rfl
  · show (c == '#' || c == '!' || c == '"' || c == '$' || c == '&' || c == '\'' ||
        c == '(' || c == ')' || c == '*' || c == ',' || c == ':' || c == ';' ||
        c == '<' || c == '=' || c == '>' || c == '?' || c == '@' || c == '[' ||
        c == '\\' || c == ']' || c == '^' || c == '\x60' || c == '\x7b' ||
        c == '|' || c == '\x7d') = false
    rw [identChar_ne c h '#' (by decide), identChar_ne c h '!' (by decide),
      identChar_ne c h '"' (by decide), identChar_ne c h '$' (by decide),
      identChar_ne c h '&' (by decide), identChar_ne c h '\'' (by decide),
      identChar_ne c h '(' (by decide), identChar_ne c h ')' (by decide),
      identChar_ne c h '*' (by decide), identChar_ne c h ',' (by decide),
      identChar_ne c h ':' (by decide), identChar_ne c h ';' (by decide),
      identChar_ne c h '<' (by decide), identChar_ne c h '=' (by decide),
      identChar_ne c h '>' (by decide), identChar_ne c h '?' (by decide),
      identChar_ne c h '@' (by decide), identChar_ne c h '[' (by decide),
      identChar_ne c h '\\' (by decide), identChar_ne c h ']' (by decide),
      identChar_ne c h '^' (by decide), identChar_ne c h '\x60' (by decide),
      identChar_ne c h '\x7b' (by decide), identChar_ne c h '|' (by decide),
      identChar_ne c h '\x7d' (by decide)]
    rfl
  · exact identChar_ne c h '"' (by decide)
  · exact identChar_ne c h '\'' (by decide)
  · exact identChar_ne c h '^' (by decide)
  · exact identChar_ne c h '$' (by decide)

lemma escapeChars_eq_self (p : Char → Bool) (s : List Char)
    (h : ∀ c ∈ s, p c = false) : escapeChars p s = s := by
  induction s with
  | nil => rfl
  | cons c cs ih =>
    simp [escapeChars, h c (by simp), ih (fun x hx => h x (by simp [hx]))]

lemma shellQuote_ident (name : List Char)
    (h : ∀ c ∈ name, isGoIdentChar c = true) : shellQuote name = name := by
  have h1 : name.any (fun c => c == '"' || jsWhitespace c) = false := by
    rw [List.any_eq_false]
    intro c hc
    have hf := ident_char_class c (h c hc)
    simp [hf.1, hf.2.2.1]
  have h2 : name.any (fun c => c == '"' || c == '\'' || jsWhitespace c) = false := by
    rw [List.any_eq_false]
    intro c hc
    have hf := ident_char_class c (h c hc)
    simp [hf.1, hf.2.2.1, hf.2.2.2.1]
  unfold shellQuote
  rw [h1, h2]
  simp only [Bool.false_and, if_false, Bool.false_eq_true]
  exact escapeChars_eq_self _ _ (fun c hc => (ident_char_class c (h c hc)).2.1)

lemma compileLiteralPattern_ident (name : List Char)
    (h : ∀ c ∈ name, isGoIdentChar c = true) :
    compileLiteralPattern ('^' :: (name ++ ['$']))
      = .startAnchor :: (name.map RegexAtom.lit ++ [.endAnchor]) := by
  unfold compileLiteralPattern
  rw [List.map_cons, List.map_append]
  congr 1
  congr 1
  apply List.map_congr_left
  intro c hc
  have hf := ident_char_class c (h c hc)
  simp [hf.2.2.2.2.1, hf.2.2.2.2.2]

lemma char_beq_comm (c d : Char) : (c == d) = (d == c) := by
  by_cases hcd : c = d
  · subst hcd; rfl
  · simp [hcd, Ne.symm hcd]

lemma matchAtoms_lits_end (name : List Char) :
    ∀ (s : List Char) (b : Bool),
      matchAtomsFrom (name.map RegexAtom.lit ++ [RegexAtom.endAnchor]) s b = (s == name) := by
  induction name with
  | nil =>
    intro s b
    cases s <;> simp [matchAtomsFrom]
  | cons c rest ih =>
    intro s b
    cases s with
    | nil => simp [matchAtomsFrom]
    | cons d s' =>
      simp only [List.map_cons, List.cons_append, matchAtomsFrom, List.append_eq, ih s' false]
      show (c == d && s' == rest) = (d :: s' == c :: rest)
      rw [char_beq_comm]
      rfl

lemma searchFrom_startAnchor_false (ps : List RegexAtom) (s : List Char) :
    regexSearchFrom (RegexAtom.startAnchor :: ps) s false = false := by
  induction s with
  | nil => simp [regexSearchFrom, matchAtomsFrom]
  | cons d s' ih => simp [regexSearchFrom, matchAtomsFrom, ih]

/-- **C5**: for every identifier benchmark name, the built `-bench` value is
exactly the name between the `^`/`$` anchors (shell quoting leaves the name
untouched), and the Go runner's unanchored regular-expression search then
selects a benchmark if and only if its name equals the given name — so
running `BenchmarkX` can never trigger `BenchmarkXY`. -/
theorem c5_anchored_exact_match (name : List Char)
    (h : ∀ c ∈ name, isGoIdentChar c = true) :
    benchPattern name = '^' :: (name ++ ['$']) ∧
      ∀ b : List Char, benchNameMatches (benchPattern name) b = (b == name) := by
  have hq : shellQuote name = name := shellQuote_ident name h
  have hpat : benchPattern name = '^' :: (name ++ ['$']) := by
    simp [benchPattern, hq]
  refine ⟨hpat, ?_⟩
  intro b
  unfold benchNameMatches
  rw [hpat, compileLiteralPattern_ident name h]
  cases b with
  | nil => simp [regexSearchFrom, matchAtomsFrom, matchAtoms_lits_end]
  | cons d b' =>
    simp [regexSearchFrom, matchAtomsFrom, matchAtoms_lits_end,
      searchFrom_startAnchor_false]

/-- Witness for `c5_anchored_exact_match`: `BenchmarkX` selects itself and
does not select `BenchmarkXY`. -/
theorem c5_witness :
    benchNameMatches (benchPattern ("BenchmarkX".data)) ("BenchmarkX".data) = true ∧
      benchNameMatches (benchPattern ("BenchmarkX".data)) ("BenchmarkXY".data) = false := by
  have hthm := c5_anchored_exact_match ("BenchmarkX".data) (by decide)
  exact ⟨by rw [hthm.2]; decide, by rw [hthm.2]; decide⟩

end GoAllocations

namespace GoAllocations

/-!
## C8 — one probe failure does not abort sibling discovery
-/

/-- **C8**: when cancellation is never signalled, the package loop processes
every candidate: the result is exactly the per-candidate contributions of
the whole list and no thrown error; in particular a probe failure on one
candidate contributes nothing but leaves the processing of every later
candidate — and the retention of every later benchmark-bearing package —
unchanged. -/
theorem c8_probe_failure_isolated (cs : List PkgCandidate)
    (h : ∀ c ∈ cs, c.abortedHere = false) :
    processPackageLines cs = (cs.filterMap discoveredOf, none) := by
  induction cs with
  | nil => rfl
  | cons c rest ih =>
    have hc : c.abortedHere = false := h c (by simp)
    have ihr := ih (fun x hx => h x (by simp [hx]))
    by_cases h1 : (jsTrim c.rawLine).isEmpty
    · simp [processPackageLines, discoveredOf, hc, h1, ihr]
    · by_cases h2 : (splitSpace (jsTrim c.rawLine)).length < 2
      · simp [processPackageLines, discoveredOf, hc, h1, h2, ihr]
      · cases hp : c.probe with
        | error e => simp [processPackageLines, discoveredOf, hc, h1, h2, hp, ihr]
        | ok outLines =>
          by_cases h3 : (benchListFilter outLines).isEmpty
          · simp [processPackageLines, discoveredOf, hc, h1, h2, hp, h3, ihr]
          · simp [processPackageLines, discoveredOf, hc, h1, h2, hp, h3, ihr]

/-- Witness for `c8_probe_failure_isolated`: two candidates with a failing
probe in front; the second package is still discovered. -/
theorem c8_witness :
    processPackageLines
      [ ⟨"broken /w/broken".data, .error (), false⟩
      , ⟨"pkg /w/pkg".data, .ok ["BenchmarkAlloc".data], false⟩ ]
      = ([⟨"pkg".data, "/w/pkg".data, ["BenchmarkAlloc".data]⟩], none) := by
  rw [c8_probe_failure_isolated _ (by intro c hc; fin_cases hc <;> rfl)]
  decide

end GoAllocations

namespace GoAllocations

/-!
## C10 — cache lookup is invariant under path resolution
-/

lemma splitSlash_ne_nil (cs : List Char) : splitSlash cs ≠ [] := by
  induction cs with
  | nil => simp [splitSlash]
  | cons c r ih =>
    by_cases hc : (c == '/') = true
    · simp [splitSlash, hc]
    · simp only [splitSlash, Bool.not_eq_true] at hc ⊢
      rw [hc]
      cases hsp : splitSlash r with
      | nil => exact absurd hsp ih
      | cons comp rest => simp

lemma splitSlash_no_slash (cs : List Char) : ∀ x ∈ splitSlash cs, '/' ∉ x := by
  induction cs with
  | nil => simp [splitSlash]
  | cons c r ih =>
    by_cases hc : (c == '/') = true
    · simp only [splitSlash, hc, if_true]
      intro x hx
      rcases List.mem_cons.mp hx with rfl | hx
      · simp
      · exact ih x hx
    · simp only [splitSlash, Bool.not_eq_true] at hc ⊢
      rw [hc]
      have hcne : c ≠ '/' := by simpa using hc
      cases hsp : splitSlash r with
      | nil => exact absurd hsp (splitSlash_ne_nil r)
      | cons comp rest =>
        intro x hx
        rcases List.mem_cons.mp hx with rfl | hx
        · intro hmem
          rcases List.mem_cons.mp hmem with heq | hmem
          · exact hcne heq.symm
          · exact ih comp (hsp ▸ List.mem_cons_self comp rest) hmem
        · exact ih x (hsp ▸ List.mem_cons_of_mem comp hx)

lemma normStep_foldl_clean (comps : List (List Char)) (acc : List (List Char))
    (hcomps : ∀ x ∈ comps, '/' ∉ x)
    (hacc : ∀ x ∈ acc, x ≠ [] ∧ x ≠ ".".data ∧ x ≠ "..".data ∧ '/' ∉ x) :
    ∀ x ∈ comps.foldl normStep acc,
      x ≠ [] ∧ x ≠ ".".data ∧ x ≠ "..".data ∧ '/' ∉ x := by
  induction comps generalizing acc with
  | nil => exact hacc
  | cons c rest ih =>
    rw [List.foldl_cons]
    refine ih (normStep acc c) (fun x hx => hcomps x (by simp [hx])) ?_
    intro x hx
    unfold normStep at hx
    split_ifs at hx with hd1 hd2
    · exact hacc x hx
    · exact hacc x (List.mem_of_mem_dropLast hx)
    · rcases List.mem_append.mp hx with hx | hx
      · exact hacc x hx
      · have hxc : x = c := by simpa using hx
        subst hxc
        simp only [Bool.or_eq_true, List.isEmpty_iff, beq_iff_eq] at hd1
        push_neg at hd1
        refine ⟨hd1.1, hd1.2, ?_, hcomps x (by simp)⟩
        intro hxe
        exact hd2 (by simp [hxe])

lemma normStep_foldl_of_clean (comps : List (List Char)) (acc : List (List Char))
    (h : ∀ x ∈ comps, x ≠ [] ∧ x ≠ ".".data ∧ x ≠ "..".data) :
    comps.foldl normStep acc = acc ++ comps := by
  induction comps generalizing acc with
  | nil => simp
  | cons c rest ih =>
    have hc := h c (by simp)
    rw [List.foldl_cons, ih _ (fun x hx => h x (by simp [hx]))]
    unfold normStep
    rw [if_neg (by simp [hc.1, hc.2.1]), if_neg (by simp [hc.2.2])]
    simp

lemma splitSlash_noslash_single (x : List Char) (h : '/' ∉ x) : splitSlash x = [x] := by
  induction x with
  | nil => rfl
  | cons c r ih =>
    have hc : (c == '/') = false := by
      simp only [beq_eq_false_iff_ne, ne_eq]
      intro hcc
      exact h (by simp [hcc])
    simp only [splitSlash, hc, Bool.false_eq_true, if_false]
    rw [ih (fun hm => h (List.mem_cons_of_mem c hm))]

lemma splitSlash_append_slash (x y : List Char) (h : '/' ∉ x) :
    splitSlash (x ++ '/' :: y) = x :: splitSlash y := by
  induction x with
  | nil => simp [splitSlash]
  | cons c r ih =>
    have hc : (c == '/') = false := by
      simp only [beq_eq_false_iff_ne, ne_eq]
      intro hcc
      exact h (by simp [hcc])
    simp only [List.cons_append, splitSlash, hc, Bool.false_eq_true, if_false,
      List.append_eq]
    rw [ih (fun hm => h (List.mem_cons_of_mem c hm))]

lemma splitSlash_joinSlash (comps : List (List Char)) (hne : comps ≠ [])
    (h : ∀ x ∈ comps, x ≠ [] ∧ '/' ∉ x) : splitSlash (joinSlash comps) = comps := by
  induction comps with
  | nil => exact absurd rfl hne
  | cons c rest ih =>
    cases rest with
    | nil => exact splitSlash_noslash_single c (h c (by simp)).2
    | cons c2 rest2 =>
      rw [show joinSlash (c :: c2 :: rest2) = c ++ '/' :: joinSlash (c2 :: rest2) from rfl]
      rw [splitSlash_append_slash c _ (h c (by simp)).2]
      rw [ih (by simp) (fun x hx => h x (by simp [hx]))]

lemma norm_of_normalized (comps : List (List Char))
    (hclean : ∀ x ∈ comps, x ≠ [] ∧ x ≠ ".".data ∧ x ≠ "..".data ∧ '/' ∉ x) :
    (splitSlash (joinSlash comps)).foldl normStep [] = comps := by
  cases comps with
  | nil => rfl
  | cons c rest =>
    rw [splitSlash_joinSlash _ (by simp)
      (fun x hx => ⟨(hclean x hx).1, (hclean x hx).2.2.2⟩)]
    rw [normStep_foldl_of_clean _ []
      (fun x hx => ⟨(hclean x hx).1, (hclean x hx).2.1, (hclean x hx).2.2.1⟩)]
    simp

/-- Resolving is idempotent: resolving an already-resolved (absolute,
normalized) path changes nothing. -/
lemma resolveChars_idem (cwd p : List Char) :
    resolveChars cwd (resolveChars cwd p) = resolveChars cwd p := by
  have hclean := normStep_foldl_clean
    (splitSlash (if p.head? == some '/' then p else cwd ++ '/' :: p)) []
    (splitSlash_no_slash _) (by simp)
  have hres : resolveChars cwd p
      = '/' :: joinSlash ((splitSlash (if p.head? == some '/' then p
          else cwd ++ '/' :: p)).foldl normStep []) := rfl
  rw [hres]
  unfold resolveChars
  rw [if_pos (by simp)]
  congr 1
  rw [show splitSlash ('/' :: joinSlash ((splitSlash (if p.head? == some '/' then p
        else cwd ++ '/' :: p)).foldl normStep []))
      = [] :: splitSlash (joinSlash ((splitSlash (if p.head? == some '/' then p
        else cwd ++ '/' :: p)).foldl normStep [])) from by simp [splitSlash]]
  rw [show ∀ L, List.foldl normStep [] ([] :: L) = List.foldl normStep [] L
    from fun L => rfl]
  rw [norm_of_normalized _ hclean]

/-- **C10**: benchmark-cache lookup is invariant under path resolution:
looking up `(packagePath, name)` and `(resolve(packagePath), name)` read the
same key, because `getKey` always resolves the package path and resolving is
idempotent — two spellings of the same directory address the same entry. -/
theorem c10_lookup_resolve_invariant (cache : List (List Char × Nat))
    (cwd packagePath benchmarkName : List Char) :
    cacheFind cache cwd packagePath benchmarkName
      = cacheFind cache cwd (resolveChars cwd packagePath) benchmarkName := by
  unfold cacheFind getKey
  rw [resolveChars_idem]

end GoAllocations
